import Mathlib

/-!
Verification of the file-access tracer of `sdf` (src/main.go, `traceCmd`).

Strings are modelled as `List Char` (the Go code works on byte strings;
all operations involved — `strings.Split` on `"`, `strings.HasPrefix`,
length comparison and slicing from a byte offset — are modelled
character-by-character).
-/

namespace Sdf

/-- Go `strings.Split(line, sep)` for a one-character separator `c`:
the list of maximal fragments of `l` between occurrences of `c`.
Always returns at least one fragment (Go returns `[s]` when the
separator does not occur). -/
def splitOnChar (c : Char) : List Char → List (List Char)
  | [] => [[]]
  | x :: xs =>
    if x = c then
      [] :: splitOnChar c xs
    else
      (x :: (splitOnChar c xs).headI) :: (splitOnChar c xs).tail

/-- The line parser of `traceCmd` (src/main.go:139-140):
`temp := strings.Split(line, "\"")`; a line matches when
`len(temp) > 2`, and the extracted raw path is `temp[1]`,
the text between the first and the second double quote. -/
def parseLine (line : List Char) : Option (List Char) :=
  match splitOnChar '"' line with
  | _ :: p :: _ :: _ => some p
  | _ => none

/-- The path normalization of `traceCmd` (src/main.go:141-145):
`strings.HasPrefix(temp[1], userPath)`, then skip when
`len(temp[1]) == uplen`, else emit `temp[1][uplen+1:]`. -/
def normalize (up path : List Char) : Option (List Char) :=
  if up.isPrefixOf path then
    if path.length = up.length then none
    else some (path.drop (up.length + 1))
  else none

/-- What one diagnostic line contributes to the output:
parse, then normalize (src/main.go:139-146). -/
def lineOutput (up line : List Char) : Option (List Char) :=
  (parseLine line).bind (normalize up)

/-- The read loop of `traceCmd` (src/main.go:134-148) over the list of
complete lines: a line whose `lineOutput` is `none` is skipped
(`continue` / no print), a match is printed and the loop goes on. -/
def traceLoop (up : List Char) : List (List Char) → List (List Char)
  | [] => []
  | line :: rest =>
    match lineOutput up line with
    | none => traceLoop up rest
    | some out => out :: traceLoop up rest

/-- The complete lines `bufio.ReadString('\n')` yields from a stream
before reporting `io.EOF` (src/main.go:135-138): each fragment up to and
including a newline; the trailing fragment after the last newline is
returned together with `io.EOF` and the loop breaks without processing
it, so it is dropped here. -/
def goReadLines : List Char → List (List Char)
  | [] => []
  | x :: xs =>
    if x = '\n' then
      ['\n'] :: goReadLines xs
    else
      match goReadLines xs with
      | [] => []
      | l :: ls => (x :: l) :: ls

/-- The output of the read loop on a whole diagnostic stream. -/
def traceStream (up s : List Char) : List (List Char) :=
  traceLoop up (goReadLines s)

/-- One line the trace command prints: one of the two precondition error
messages (src/main.go:115 and 120) or one candidate path (src/main.go:145). -/
inductive OutLine where
  | straceNotFound : OutLine
  | binaryNotFound : OutLine
  | candidate : List Char → OutLine
deriving DecidableEq

/-- The observable outcome of one `traceCmd` invocation: the printed
lines, whether a child process was spawned (`straceCmd.Start()`), and
whether it was waited on (`straceCmd.Wait()`). -/
structure TraceRun where
  printed : List OutLine
  spawned : Bool
  waited : Bool
deriving DecidableEq

/-- The whole of `traceCmd` (src/main.go:112-150): check strace on the
search path, then the target binary, each failure printing one line and
returning without starting a process; otherwise run the child, drain and
filter its diagnostic stream, and wait. `straceFound` and `targetFound`
model the two `exec.LookPath` outcomes, `stream` the diagnostic stream,
and `childExit` the traced program exit status; the Go code calls
`straceCmd.Wait()` and ignores its result, so `childExit` is taken and
never consulted. -/
def traceCmd (straceFound targetFound : Bool) (up stream : List Char)
    (childExit : Int) : TraceRun :=
  if straceFound = false then
    { printed := [OutLine.straceNotFound], spawned := false, waited := false }
  else if targetFound = false then
    { printed := [OutLine.binaryNotFound], spawned := false, waited := false }
  else
    let _ := childExit
    { printed := (traceStream up stream).map OutLine.candidate,
      spawned := true, waited := true }

/-! ## Helper lemmas about `splitOnChar` -/

theorem splitOnChar_ne_nil (c : Char) (l : List Char) : splitOnChar c l ≠ [] := by
  cases l with
  | nil => simp [splitOnChar]
  | cons x xs =>
    simp only [splitOnChar]
    split <;> simp

theorem splitOnChar_append_sep (c : Char) (a rest : List Char) (h : c ∉ a) :
    splitOnChar c (a ++ c :: rest) = a :: splitOnChar c rest := by
  induction a with
  | nil => simp [splitOnChar]
  | cons x a ih =>
    have hx : ¬ x = c := by
      intro hh
      exact h (by simp [hh])
    have ha : c ∉ a := fun hm => h (List.mem_cons_of_mem _ hm)
    simp only [List.cons_append, splitOnChar, List.append_eq]
    rw [if_neg hx, ih ha]
    rfl

theorem splitOnChar_length (c : Char) (l : List Char) :
    (splitOnChar c l).length = l.count c + 1 := by
  induction l with
  | nil => rfl
  | cons x xs ih =>
    simp only [splitOnChar]
    by_cases hx : x = c
    · subst hx
      simp [List.count_cons, ih]
    · rcases hr : splitOnChar c xs with _ | ⟨h0, t0⟩
      · exact absurd hr (splitOnChar_ne_nil c xs)
      · rw [hr] at ih
        simp only [if_neg hx, hr, List.headI, List.tail]
        simp only [List.length_cons] at ih ⊢
        rw [List.count_cons, if_neg (by simpa using hx)]
        omega

/-! ## Helper lemmas about `List.isPrefixOf` (Go `strings.HasPrefix`) -/

theorem isPrefixOf_append_self (a b : List Char) :
    a.isPrefixOf (a ++ b) = true := by
  induction a with
  | nil => simp [List.isPrefixOf]
  | cons x xs ih => simp [List.isPrefixOf, ih]

theorem eq_append_of_isPrefixOf (a : List Char) :
    ∀ l : List Char, a.isPrefixOf l = true → ∃ t, l = a ++ t := by
  induction a with
  | nil =>
    intro l _
    exact ⟨l, rfl⟩
  | cons x xs ih =>
    intro l h
    cases l with
    | nil => simp [List.isPrefixOf] at h
    | cons y ys =>
      simp only [List.isPrefixOf, Bool.and_eq_true, beq_iff_eq] at h
      obtain ⟨t, ht⟩ := ih ys h.2
      exact ⟨t, by simp [h.1, ht]⟩

/-! ## Helper lemmas about `goReadLines` -/

theorem goReadLines_no_newline (t : List Char) (h : '\n' ∉ t) :
    goReadLines t = [] := by
  induction t with
  | nil => rfl
  | cons x xs ih =>
    have hx : ¬ x = '\n' := by
      intro hh
      exact h (by simp [hh])
    have hxs : '\n' ∉ xs := fun hm => h (List.mem_cons_of_mem _ hm)
    simp only [goReadLines]
    rw [if_neg hx, ih hxs]

theorem goReadLines_append_no_newline (s t : List Char) (h : '\n' ∉ t) :
    goReadLines (s ++ t) = goReadLines s := by
  induction s with
  | nil => simpa using goReadLines_no_newline t h
  | cons x xs ih =>
    simp only [List.cons_append, goReadLines, List.append_eq]
    rw [ih]

/-! ## Concrete diagnostic lines used in the scenario statements -/

/-- A diagnostic line opening `/home/alice/.bashrc`. -/
def lineBashrc : List Char :=
  "openat(AT_FDCWD, \"/home/alice/.bashrc\", O_RDONLY) = 3\n".toList

/-- A diagnostic line opening `/etc/passwd`. -/
def linePasswd : List Char :=
  "openat(AT_FDCWD, \"/etc/passwd\", O_RDONLY) = 3\n".toList

/-! ## Claim theorems -/

/-- C1: Normalizer prefix law — for every home directory `up` and every
path of the form `up ++ "/" ++ suffix` with non-empty `suffix`, the
normalization performed on a matched path returns exactly `suffix`. -/
theorem normalize_prefix_law (up suffix : List Char) (h : suffix ≠ []) :
    normalize up (up ++ '/' :: suffix) = some suffix := by
  have hpre : up.isPrefixOf (up ++ '/' :: suffix) = true :=
    isPrefixOf_append_self up ('/' :: suffix)
  have hlen : ¬ (up ++ '/' :: suffix).length = up.length := by
    simp only [List.length_append, List.length_cons]
    omega
  have hsplit : up ++ '/' :: suffix = (up ++ ['/']) ++ suffix := by
    simp
  have hdrop : (up ++ '/' :: suffix).drop (up.length + 1) = suffix := by
    rw [hsplit]
    exact List.drop_left' (by simp)
  simp [normalize, hpre, hlen, hdrop]

/-- Witness for C1 at `up = "/home/alice"`, `suffix = ".bashrc"`. -/
theorem normalize_prefix_law_witness :
    ".bashrc".toList ≠ ([] : List Char) ∧
    normalize "/home/alice".toList
      ("/home/alice".toList ++ '/' :: ".bashrc".toList) =
      some ".bashrc".toList :=
  ⟨by decide, normalize_prefix_law "/home/alice".toList ".bashrc".toList (by decide)⟩

/-- C2 counterexample: the path `/home/aliceX` is different from the home
directory `/home/alice` and does not have it as a true path-prefix (the
prefix is not followed by the separator), yet `normalize` returns
`some ""` rather than none, and a diagnostic line quoting that path does
emit a (empty) candidate. The code only checks `strings.HasPrefix` and
unconditionally drops `len(home)+1` characters (src/main.go:141-145). -/
theorem normalize_exclusion_cex :
    "/home/aliceX".toList ≠ "/home/alice".toList ∧
    ("/home/alice".toList ++ ['/']).isPrefixOf "/home/aliceX".toList = false ∧
    normalize "/home/alice".toList "/home/aliceX".toList = some [] ∧
    lineOutput "/home/alice".toList "x \"/home/aliceX\" y\n".toList = some [] := by
  decide

/-- C2 (amended): for every path that equals the home directory exactly,
or of which the home directory is not a plain string prefix, normalization
returns none and no CandidatePath is emitted for any line parsing to that
path. (A proper string-prefix match not followed by the separator is still
emitted, so the exclusion holds for plain prefixes, not true path-prefixes.) -/
theorem normalize_exclusion_amended (up path : List Char)
    (h : path = up ∨ up.isPrefixOf path = false) :
    normalize up path = none ∧
    ∀ line, parseLine line = some path → lineOutput up line = none := by
  have hnorm : normalize up path = none := by
    rcases h with h | h
    · rw [h]
      cases hpre : up.isPrefixOf up with
      | false => simp [normalize, hpre]
      | true => simp [normalize, hpre]
    · simp [normalize, h]
  refine ⟨hnorm, fun line hl => ?_⟩
  rw [lineOutput, hl]
  simpa using hnorm

/-- Witness for the amended C2 at `up = "/home/alice"`, `path = "/etc/passwd"`. -/
theorem normalize_exclusion_amended_witness :
    ("/etc/passwd".toList = "/home/alice".toList ∨
      "/home/alice".toList.isPrefixOf "/etc/passwd".toList = false) ∧
    (normalize "/home/alice".toList "/etc/passwd".toList = none ∧
      ∀ line, parseLine line = some "/etc/passwd".toList →
        lineOutput "/home/alice".toList line = none) :=
  ⟨Or.inr (by decide),
    normalize_exclusion_amended "/home/alice".toList "/etc/passwd".toList
      (Or.inr (by decide))⟩

/-- C3: Order preservation without deduplication — the read loop emits,
in order, exactly one candidate per matching line (`traceLoop` is
`filterMap` of the per-line output, which preserves relative order and
never merges repeats); in particular a stream of two lines opening
`/home/alice/.bashrc` and one opening `/etc/passwd`, with home directory
`/home/alice`, yields exactly `.bashrc` twice and never `/etc/passwd`. -/
theorem trace_order_no_dedup (up : List Char) (lines : List (List Char)) :
    traceLoop up lines = lines.filterMap (lineOutput up) ∧
    traceLoop "/home/alice".toList [lineBashrc, linePasswd, lineBashrc] =
      [".bashrc".toList, ".bashrc".toList] := by
  constructor
  · induction lines with
    | nil => rfl
    | cons l ls ih =>
      simp only [traceLoop, List.filterMap_cons]
      cases h : lineOutput up l <;> simp [h, ih]
  · decide

/-- C4: Parser robustness — a line splitting into fewer than 3 fragments
on the double quote produces no match, and the read loop skips it and
continues with the next lines. -/
theorem parser_robustness (up line : List Char) (rest : List (List Char))
    (h : (splitOnChar '"' line).length < 3) :
    parseLine line = none ∧ traceLoop up (line :: rest) = traceLoop up rest := by
  have hp : parseLine line = none := by
    unfold parseLine
    rcases hs : splitOnChar '"' line with _ | ⟨a, _ | ⟨b, _ | ⟨c, tl⟩⟩⟩
    · rfl
    · rfl
    · rfl
    · rw [hs] at h
      simp only [List.length_cons] at h
      omega
  refine ⟨hp, ?_⟩
  simp [traceLoop, lineOutput, hp]

/-- Witness for C4 on a quoteless line. -/
theorem parser_robustness_witness :
    (splitOnChar '"' "no quotes here\n".toList).length < 3 ∧
    (parseLine "no quotes here\n".toList = none ∧
      traceLoop "/home/alice".toList ["no quotes here\n".toList] =
        traceLoop "/home/alice".toList []) :=
  ⟨by decide,
    parser_robustness "/home/alice".toList "no quotes here\n".toList [] (by decide)⟩

/-- C5: Parser extraction — on a line of the form
`pre ++ "\"" ++ "/home/user/.bashrc" ++ "\"" ++ suf` where `pre` contains
no double quote, the parser extracts exactly `/home/user/.bashrc`, the
token between the first and the second double quote. -/
theorem parser_extraction (pre suf : List Char) (h : '"' ∉ pre) :
    parseLine (pre ++ '"' :: ("/home/user/.bashrc".toList ++ '"' :: suf)) =
      some "/home/user/.bashrc".toList := by
  have hpath : '"' ∉ "/home/user/.bashrc".toList := by decide
  unfold parseLine
  rw [splitOnChar_append_sep '"' pre _ h,
    splitOnChar_append_sep '"' "/home/user/.bashrc".toList suf hpath]
  rcases hs : splitOnChar '"' suf with _ | ⟨a, t⟩
  · exact absurd hs (splitOnChar_ne_nil '"' suf)
  · rfl

/-- Witness for C5 on a realistic strace line. -/
theorem parser_extraction_witness :
    ('"' ∉ "openat(AT_FDCWD, ".toList) ∧
    parseLine ("openat(AT_FDCWD, ".toList ++
        '"' :: ("/home/user/.bashrc".toList ++ '"' :: ", O_RDONLY) = 3\n".toList)) =
      some "/home/user/.bashrc".toList :=
  ⟨by decide,
    parser_extraction "openat(AT_FDCWD, ".toList ", O_RDONLY) = 3\n".toList (by decide)⟩

/-- C6: Precondition error handling — when strace is missing from the
search path or the target program is not resolvable, `traceCmd` prints
exactly one explanatory line, spawns no process, produces no candidate
path, and returns; the strace availability check comes first. -/
theorem trace_precondition_errors (st tf : Bool) (up stream : List Char) (e : Int)
    (h : st = false ∨ tf = false) :
    (traceCmd st tf up stream e).spawned = false ∧
    (traceCmd st tf up stream e).printed.length = 1 ∧
    (∀ p, OutLine.candidate p ∉ (traceCmd st tf up stream e).printed) ∧
    (st = false → (traceCmd st tf up stream e).printed = [OutLine.straceNotFound]) ∧
    (st = true → (traceCmd st tf up stream e).printed = [OutLine.binaryNotFound]) := by
  rcases h with h | h
  · subst h
    simp [traceCmd]
  · subst h
    cases st <;> simp [traceCmd]

/-- Witness for C6 with strace absent. -/
theorem trace_precondition_errors_witness :
    (false = false ∨ true = false) ∧
    ((traceCmd false true [] [] 0).spawned = false ∧
      (traceCmd false true [] [] 0).printed.length = 1 ∧
      (∀ p, OutLine.candidate p ∉ (traceCmd false true [] [] 0).printed) ∧
      (false = false → (traceCmd false true [] [] 0).printed = [OutLine.straceNotFound]) ∧
      (false = true → (traceCmd false true [] [] 0).printed = [OutLine.binaryNotFound])) :=
  ⟨Or.inl rfl, trace_precondition_errors false true [] [] 0 (Or.inl rfl)⟩

/-- C7: Emission invariant — for an absolute home directory, every
candidate the read loop emits comes from a parsed path that is absolute,
has the home directory as a prefix, and is strictly longer than it; and
a line whose parsed path equals the home directory exactly emits nothing. -/
theorem emission_invariant (up : List Char) (habs : up.head? = some '/') :
    (∀ line out, lineOutput up line = some out →
      ∃ p, parseLine line = some p ∧ p.head? = some '/' ∧
        up.isPrefixOf p = true ∧ up.length < p.length) ∧
    (∀ line, parseLine line = some up → lineOutput up line = none) := by
  constructor
  · intro line out hlo
    rcases hp : parseLine line with _ | p
    · rw [lineOutput, hp] at hlo
      cases hlo
    · rw [lineOutput, hp] at hlo
      simp only [Option.some_bind] at hlo
      have hpre : up.isPrefixOf p = true := by
        by_contra hc
        simp [normalize, hc] at hlo
      have hlen : ¬ p.length = up.length := by
        intro hc
        simp [normalize, hpre, hc] at hlo
      obtain ⟨t, ht⟩ := eq_append_of_isPrefixOf up p hpre
      have hle : up.length ≤ p.length := by
        rw [ht]
        simp
      have hhead : p.head? = some '/' := by
        rw [ht]
        cases up with
        | nil => cases habs
        | cons u us => simpa using habs
      exact ⟨p, rfl, hhead, hpre, by omega⟩
  · intro line hl
    rw [lineOutput, hl]
    simp only [Option.some_bind]
    cases hpre : up.isPrefixOf up with
    | false => simp [normalize, hpre]
    | true => simp [normalize, hpre]

/-- Witness for C7 at home directory `/home/alice`, instantiated on a
concrete matched line. -/
theorem emission_invariant_witness :
    ("/home/alice".toList.head? = some '/') ∧
    ((∀ line out, lineOutput "/home/alice".toList line = some out →
      ∃ p, parseLine line = some p ∧ p.head? = some '/' ∧
        "/home/alice".toList.isPrefixOf p = true ∧
        "/home/alice".toList.length < p.length) ∧
    (∀ line, parseLine line = some "/home/alice".toList →
      lineOutput "/home/alice".toList line = none)) :=
  ⟨rfl, emission_invariant "/home/alice".toList rfl⟩

/-- C8: Exit behavior — once the stream is drained the tracer waits on
the child and returns normally; the traced program exit status is
discarded and never influences the result. -/
theorem trace_exit_discarded (st tf : Bool) (up stream : List Char) (e1 e2 : Int)
    (hst : st = true) (htf : tf = true) :
    (traceCmd st tf up stream e1).waited = true ∧
    traceCmd st tf up stream e1 = traceCmd st tf up stream e2 := by
  subst hst
  subst htf
  exact ⟨rfl, rfl⟩

/-- Witness for C8 with two different child exit statuses. -/
theorem trace_exit_discarded_witness :
    (true = true) ∧ (true = true) ∧
    ((traceCmd true true [] [] 0).waited = true ∧
      traceCmd true true [] [] 0 = traceCmd true true [] [] 7) :=
  ⟨rfl, rfl, trace_exit_discarded true true [] [] 0 7 rfl rfl⟩

/-- C9: a trailing fragment with no newline at end-of-stream is returned
together with `io.EOF` and the loop breaks before parsing it, so it
contributes no candidate, whatever it contains. -/
theorem trace_partial_line_discarded (up s t : List Char) (h : '\n' ∉ t) :
    traceStream up (s ++ t) = traceStream up s := by
  unfold traceStream
  rw [goReadLines_append_no_newline s t h]

/-- Witness for C9: the discarded partial line holds a well-formed quoted
path inside the home directory, yet nothing is emitted. -/
theorem trace_partial_line_discarded_witness :
    ('\n' ∉ "x \"/home/alice/.bashrc\" y".toList) ∧
    traceStream "/home/alice".toList ([] ++ "x \"/home/alice/.bashrc\" y".toList) =
      traceStream "/home/alice".toList [] :=
  ⟨by decide,
    trace_partial_line_discarded "/home/alice".toList []
      "x \"/home/alice/.bashrc\" y".toList (by decide)⟩

/-- C10: the parser never inspects the system-call name — any line with
at least two double quotes yields a match (the text between the first
two quotes), so a non-openat strace annotation quoting a path inside the
home directory is reported as a candidate too. -/
theorem parser_no_syscall_filter :
    (∀ line : List Char, 2 ≤ line.count '"' → (parseLine line).isSome = true) ∧
    lineOutput "/home/alice".toList
        "+++ exited with 0 +++ note \"/home/alice/.bashrc\" trailing\n".toList =
      some ".bashrc".toList := by
  constructor
  · intro line hc
    have hlen : 3 ≤ (splitOnChar '"' line).length := by
      rw [splitOnChar_length]
      omega
    unfold parseLine
    rcases hs : splitOnChar '"' line with _ | ⟨a, _ | ⟨b, _ | ⟨c, tl⟩⟩⟩
    · rw [hs] at hlen
      simp at hlen
    · rw [hs] at hlen
      simp at hlen
    · rw [hs] at hlen
      simp at hlen
    · rfl
  · decide

/-- Witness for C10 on a strace signal annotation carrying two quotes. -/
theorem parser_no_syscall_filter_witness :
    (2 ≤ "+++ killed by SIGKILL \"/home/alice/.x\" +++\n".toList.count '"') ∧
    (parseLine "+++ killed by SIGKILL \"/home/alice/.x\" +++\n".toList).isSome = true :=
  ⟨by decide,
    parser_no_syscall_filter.1 "+++ killed by SIGKILL \"/home/alice/.x\" +++\n".toList
      (by decide)⟩

end Sdf
